import Mathlib

/-!
Verification of the town-name grammar compiler in `grf/grf.py`
(frenchies-town-names).

Shallow embedding conventions:
* Python `int` values that reach `int.to_bytes(1, 'little')` are modelled as
  `Nat`; `to_bytes` raises `OverflowError` for values outside `0..255`, which
  is modelled by `output_byte` returning an error.
* Python exceptions (`KeyError` from dict lookups, `ValueError` from
  `math.log2(0)`, `OverflowError` from `to_bytes`) are modelled by the
  `EmitError` sum type and `Except`.
* Python `dict` registries (`townNameIDS`, `langs`) are modelled as functions
  `String → Option Nat`; assignment is functional update (later assignments
  shadow earlier ones, exactly like dict assignment).
* `bytearray` output is a `List Nat` of byte values; functions that append to
  a caller-supplied bytearray take it as an argument and return the extended
  list.
-/

/-- The exceptions the emitter can raise: `keyError` is a Python `KeyError`
(unresolved reference id / unknown language tag), `valueError` is the
`ValueError` raised by `math.log2(0)` (a degenerate weight sum), and
`overflowError` is the `OverflowError` raised by `int.to_bytes(1, 'little')`
on a value outside one byte. -/
inductive EmitError where
  | keyError (key : String)
  | valueError
  | overflowError
deriving DecidableEq

deriving instance DecidableEq for Except

/-- One alternative inside a part: `reference` is the Python class
`TownReference` (fields `ref`, `proba`), `string` is `TownString`
(fields `text`, `proba`).  `proba` defaults to 1 in Python but is an
arbitrary caller-supplied integer; we model it as `Nat`. -/
inductive TownEntry where
  | reference (ref : String) (proba : Nat)
  | string (text : String) (proba : Nat)
deriving DecidableEq

/-- The `proba` field common to `TownReference` and `TownString`. -/
def TownEntry.proba : TownEntry → Nat
  | .reference _ p => p
  | .string _ p => p

/-- Whether the entry is a `TownReference` (decidable, for concrete checks). -/
def TownEntry.isReference : TownEntry → Bool
  | .reference _ _ => true
  | .string _ _ => false

/-- The Python class `TownName`: `__init__(self, entropyStart, ID, name,
content)`.  `name` is `None` or a language-tag → string dict (modelled as an
association list in insertion order, since Python dicts iterate in insertion
order); `content` is a list of parts, each part a list of entries. -/
structure TownName where
  entropyStart : Nat
  ID : String
  name : Option (List (String × String))
  content : List (List TownEntry)
deriving DecidableEq

/-- `sum_entropy` for one part: `for entry in part: sum_entropy += entry.proba`. -/
def sumProba (part : List TownEntry) : Nat := (part.map TownEntry.proba).sum

/-- Total number of entries in a node, over all its parts (used only as the
fuel bound for `divideAux`; not part of the Python source). -/
def totalAlts (t : TownName) : Nat := (t.content.map List.length).sum

/-- Fuel-indexed ceiling base-2 logarithm; the recursion halves (rounding up)
until the argument reaches 1, so fuel `n` is always sufficient for input `n`. -/
def ceilLog2Aux : Nat → Nat → Nat
  | 0, _ => 0
  | fuel+1, n => if n ≤ 1 then 0 else ceilLog2Aux fuel ((n + 1) / 2) + 1

/-- `math.ceil(math.log2 n)` for `n ≥ 1` (exact on integers; the float
rounding of `math.log2` is ignored, which only matters for astronomically
large sums).  Python raises `ValueError` on `n = 0`; every call site below
either guards the zero case or (in `divideTownNames`) computes a value that
is provably unused when the part is empty. -/
def ceilLog2 (n : Nat) : Nat := ceilLog2Aux n n

/-- `output_byte(b, file)`: `file.extend(b.to_bytes(1, 'little'))`.
`to_bytes` raises `OverflowError` unless `0 ≤ b < 256`. -/
def output_byte (b : Nat) : Except EmitError (List Nat) :=
  if b < 256 then .ok [b] else .error .overflowError

/-- `output_dword(d, file)`: four `output_byte` calls on `d & 0xff`,
`(d >> 8) & 0xff`, `(d >> 16) & 0xff`, `(d >> 24) & 0xff`; each argument is
masked to a byte so no `OverflowError` can occur and the result is pure. -/
def output_dword (d : Nat) : List Nat :=
  [d &&& 0xFF, (d >>> 8) &&& 0xFF, (d >>> 16) &&& 0xFF, (d >>> 24) &&& 0xFF]

/-- UTF-8 encoding of one Unicode code point (the byte sequence produced by
Python's `bytes(text, 'utf-8')` for that code point). -/
def utf8EncodeChar (c : Nat) : List Nat :=
  if c < 0x80 then [c]
  else if c < 0x800 then [0xC0 + c / 64, 0x80 + c % 64]
  else if c < 0x10000 then [0xE0 + c / 4096, 0x80 + c / 64 % 64, 0x80 + c % 64]
  else [0xF0 + c / 262144, 0x80 + c / 4096 % 64, 0x80 + c / 64 % 64, 0x80 + c % 64]

/-- `bytes(text, 'utf-8')`. -/
def utf8Bytes (s : String) : List Nat :=
  s.data.flatMap (fun ch => utf8EncodeChar ch.toNat)

/-- `output_string(text, file)`: the marker bytes `b'\xc3\x9e'`, the UTF-8
bytes of the text, then a terminating zero byte. -/
def output_string (text : String) : List Nat :=
  0xC3 :: 0x9E :: (utf8Bytes text ++ [0x00])

/-- The module-level dict `langs = {'en': 0, 'fr': 3, '': 0x7f}`. -/
def langs (lang : String) : Option Nat :=
  if lang = "en" then some 0 else if lang = "fr" then some 3
  else if lang = "" then some 0x7F else none

/-- Python dict subscript `d[k]`: the value, or `KeyError` when absent. -/
def dictGet (d : String → Option Nat) (k : String) : Except EmitError Nat :=
  match d k with
  | some v => .ok v
  | none => .error (.keyError k)

/-- `output_lang_string(lang, text, file)`: `output_byte(langs[lang])` (a
`KeyError` if the tag is not in `langs`) followed by `output_string(text)`. -/
def output_lang_string (lang : String) (text : String) :
    Except EmitError (List Nat) := do
  let v ← dictGet langs lang
  let lb ← output_byte v
  .ok (lb ++ output_string text)

/-!
## The splitting step (`TownNames.divideTownNames`)

The Python `while` loop

```
max = 255
while len(part) > max and max > 1:
    howMany = min(len(part), 255)
    newPart.append(TownReference(ID + "__" + str(255-max), howMany))
    newName = TownNames.divideTownNames(TownName(entropy+maxEntropy-8,
        ID+"__"+str(255-max), None, [part[:howMany]]))
    newTownNames.extend(newName)
    part = part[255:]
    max -= 1
newPart.extend(part)
```

is modelled by `chunkLoop`, structurally recursive on the decrementing `max`
counter.  It returns the rewritten part (the appended references followed by
the leftover entries) together with the list of `(255 - max, part[:howMany])`
chunks cut off, in loop order; the recursive `divideTownNames` call on each
chunk is performed by the caller (`divideAux`), in the same order.
-/

/-- The `while` loop body of `divideTownNames` for one part.  First component:
the rewritten part (`newPart` followed by the final `newPart.extend(part)`);
second component: the `(255 - max, part[:howMany])` chunks, in loop order. -/
def chunkLoop (ID : String) : List TownEntry → Nat →
    List TownEntry × List (Nat × List TownEntry)
  | part, 0 => (part, [])
  | part, 1 => (part, [])
  | part, m+2 =>
    if m + 2 < part.length then
      let howMany := min part.length 255
      let rest := chunkLoop ID (part.drop 255) (m+1)
      (TownEntry.reference (ID ++ "__" ++ toString (255 - (m+2))) howMany :: rest.1,
       (255 - (m+2), part.take howMany) :: rest.2)
    else (part, [])

/-- Fuel-indexed body of `TownNames.divideTownNames`.  For every part the
loop above is run; every chunk cut off becomes a fresh node
`TownName(entropy+maxEntropy-8, ID+"__"+str(255-max), None, [chunk])` that is
recursively divided, and the results are spliced into the output in loop
order; finally the parent node, with every part rewritten, is appended.
`entropy + maxEntropy - 8` uses truncated `Nat` subtraction, which agrees
with Python whenever a chunk exists (then `len(part) ≥ 256`, so
`maxEntropy ≥ 8`); when no chunk exists the value is never used.
The fuel only bounds the recursion depth; `divideTownNames` supplies
`totalAlts t + 1`, which is never exhausted because each recursive call
strictly decreases `totalAlts` (see `divideAux_fuel_irrelevant`). -/
def divideAux : Nat → TownName → List TownName
  | 0, t => [t]
  | fuel+1, t =>
    let pieces := t.content.map (fun part =>
      let maxEntropy := ceilLog2 part.length
      let r := chunkLoop t.ID part 255
      (r.1, r.2.flatMap (fun kc =>
        divideAux fuel
          ⟨t.entropyStart + maxEntropy - 8, t.ID ++ "__" ++ toString kc.1,
           none, [kc.2]⟩)))
    pieces.flatMap (fun p => p.2) ++
      [⟨t.entropyStart, t.ID, t.name, pieces.map (fun p => p.1)⟩]

/-- `TownNames.divideTownNames(entry)`. -/
def divideTownNames (t : TownName) : List TownName :=
  divideAux (totalAlts t + 1) t

/-!
## Node emission (`TownName.output`)
-/

/-- Emission of one entry of a part (the body of
`for entry in part: ...` in `TownName.output`): a `TownReference` is emitted
as `output_byte(0x80 | proba)` then `output_byte(IDs[ref])` (a `KeyError`
when `ref` is not registered); a `TownString` as `output_byte(proba)` then
`output_string(text)`. -/
def outputEntry (IDs : String → Option Nat) : TownEntry →
    Except EmitError (List Nat)
  | .reference r p =>
    match output_byte (0x80 ||| p) with
    | .error er => .error er
    | .ok b1 =>
      match dictGet IDs r with
      | .error er => .error er
      | .ok h =>
        match output_byte h with
        | .error er => .error er
        | .ok b2 => .ok (b1 ++ b2)
  | .string t p =>
    match output_byte p with
    | .error er => .error er
    | .ok b1 => .ok (b1 ++ output_string t)

/-- The entry loop over one part. -/
def outputPartEntries (IDs : String → Option Nat) :
    List TownEntry → Except EmitError (List Nat)
  | [] => .ok []
  | e :: rest =>
    match outputEntry IDs e with
    | .error er => .error er
    | .ok b =>
      match outputPartEntries IDs rest with
      | .error er => .error er
      | .ok bs => .ok (b ++ bs)

/-- Emission of one part: `output_byte(len(part))`,
`output_byte(entropyStart)`, `output_byte(math.ceil(math.log2(sum_entropy)))`
(where `math.log2(0)` raises `ValueError`), then the entries. -/
def outputPart (IDs : String → Option Nat) (entropyStart : Nat)
    (part : List TownEntry) : Except EmitError (List Nat) :=
  match output_byte part.length with
  | .error er => .error er
  | .ok pb =>
    match output_byte entropyStart with
    | .error er => .error er
    | .ok eb =>
      match (if sumProba part = 0 then Except.error EmitError.valueError
             else output_byte (ceilLog2 (sumProba part))) with
      | .error er => .error er
      | .ok wb =>
        match outputPartEntries IDs part with
        | .error er => .error er
        | .ok es => .ok (pb ++ eb ++ wb ++ es)

/-- The part loop (`for part in self.content`). -/
def outputParts (IDs : String → Option Nat) (entropyStart : Nat) :
    List (List TownEntry) → Except EmitError (List Nat)
  | [] => .ok []
  | p :: rest =>
    match outputPart IDs entropyStart p with
    | .error er => .error er
    | .ok b =>
      match outputParts IDs entropyStart rest with
      | .error er => .error er
      | .ok bs => .ok (b ++ bs)

/-- The display-name table loop (`for lang in self.name`). -/
def outputLangList : List (String × String) → Except EmitError (List Nat)
  | [] => .ok []
  | lt :: rest =>
    match output_lang_string lt.1 lt.2 with
    | .error er => .error er
    | .ok b =>
      match outputLangList rest with
      | .error er => .error er
      | .ok bs => .ok (b ++ bs)

/-- The optional display-name table of a node record: when present, the
per-language tagged strings followed by the `b'\x00'` sentinel. -/
def outputNames : Option (List (String × String)) → Except EmitError (List Nat)
  | none => .ok []
  | some nm =>
    match outputLangList nm with
    | .error er => .error er
    | .ok bs => .ok (bs ++ [0x00])

/-- `TownName.output(self, b, IDs)`: build the record in a local buffer —
`b'\x0F'`, `output_byte(IDs[self.ID] + (0x80 if self.name is not None else
0))`, the optional name table, `output_byte(len(self.content))`, the parts —
then append `output_dword(len(file))`, `b'\xff'` and the buffer to `b`. -/
def TownName.output (t : TownName) (b : List Nat)
    (IDs : String → Option Nat) : Except EmitError (List Nat) :=
  match dictGet IDs t.ID with
  | .error er => .error er
  | .ok handle =>
    match output_byte (handle + (if t.name.isSome then 0x80 else 0)) with
    | .error er => .error er
    | .ok hb =>
      match outputNames t.name with
      | .error er => .error er
      | .ok nb =>
        match output_byte t.content.length with
        | .error er => .error er
        | .ok cb =>
          match outputParts IDs t.entropyStart t.content with
          | .error er => .error er
          | .ok ps =>
            let inner := 0x0F :: (hb ++ nb ++ cb ++ ps)
            .ok (b ++ output_dword inner.length ++ (0xFF :: inner))

/-!
## The compiler driver (`TownNames`)
-/

/-- The Python class `TownNames`: the caller-supplied node list plus the two
mutable registry fields `self.townNameIDS` (a dict, initially `{}`) and
`self.lastTownNameID` (initially 0).  The registry fields persist across
calls to `output` on the same object. -/
structure TownNames where
  entries : List TownName
  townNameIDS : String → Option Nat
  lastTownNameID : Nat

/-- `TownNames.__init__(self, entries)`. -/
def TownNames.init (entries : List TownName) : TownNames :=
  ⟨entries, fun _ => none, 0⟩

/-- The emission loop of `TownNames.output`:
`self.townNameIDS[entry.ID] = self.lastTownNameID; self.lastTownNameID += 1;
entry.output(file, self.townNameIDS)` for each node, threading the two
registry fields and the output buffer. -/
def outputTowns (IDs : String → Option Nat) (last : Nat) (file : List Nat) :
    List TownName → Except EmitError ((String → Option Nat) × Nat × List Nat)
  | [] => .ok (IDs, last, file)
  | e :: rest =>
    let IDs' := fun k => if k = e.ID then some last else IDs k
    match e.output file IDs' with
    | .error err => .error err
    | .ok file' => outputTowns IDs' (last + 1) file' rest

/-- `TownNames.output(self, file)`: first every caller node is expanded with
`divideTownNames` (`entries.extend(...)`), then the expanded nodes are
emitted in order, each being registered immediately before its own
emission.  Returns the object with its mutated registry fields together
with the extended output buffer. -/
def TownNames.output (tn : TownNames) (file : List Nat) :
    Except EmitError (TownNames × List Nat) :=
  match outputTowns tn.townNameIDS tn.lastTownNameID file
      (tn.entries.flatMap divideTownNames) with
  | .error er => .error er
  | .ok r => .ok ({ tn with townNameIDS := r.1, lastTownNameID := r.2.1 }, r.2.2)

/-- Calling `output` twice in a row on the same `TownNames` object (as two
calls to `GRF.output()` would), returning the bytes each call appends. -/
def runTwice (tn : TownNames) : Except EmitError (List Nat × List Nat) :=
  match tn.output [] with
  | .error er => .error er
  | .ok r1 =>
    match r1.1.output [] with
    | .error er => .error er
    | .ok r2 => .ok (r1.2, r2.2)

/-!
## A decoder for the documented string layout

The spec documents the string encoding as: a 2-byte marker (`0xC3 0x9E`),
the UTF-8 bytes of the string, then a terminating zero byte.  `decode_string`
reads a byte list according to exactly that layout: it strips the marker,
takes bytes up to the first zero, and UTF-8-decodes them.  It exists only to
state the round-trip property; it is not part of the Python source.
-/

/-- Whether a byte is a UTF-8 continuation byte. -/
def isCont (b : Nat) : Bool := 0x80 ≤ b && b < 0xC0

/-- Decode a single UTF-8 scalar from the head of a byte list: the lead byte
determines the arity, the continuation bytes contribute 6 bits each.
Returns the code point and the unconsumed tail; `none` on a stray
continuation byte, a missing continuation byte, or an invalid lead byte. -/
def utf8DecodeOne : List Nat → Option (Nat × List Nat)
  | [] => none
  | b :: rest =>
    if b < 0x80 then some (b, rest)
    else if b < 0xC0 then none
    else if b < 0xE0 then
      if 1 ≤ rest.length ∧ isCont (rest.getD 0 0) then
        some ((b - 0xC0) * 64 + (rest.getD 0 0 - 0x80), rest.drop 1)
      else none
    else if b < 0xF0 then
      if 2 ≤ rest.length ∧ isCont (rest.getD 0 0) ∧ isCont (rest.getD 1 0) then
        some ((b - 0xE0) * 4096 + (rest.getD 0 0 - 0x80) * 64 +
          (rest.getD 1 0 - 0x80), rest.drop 2)
      else none
    else if b < 0xF8 then
      if 3 ≤ rest.length ∧ isCont (rest.getD 0 0) ∧ isCont (rest.getD 1 0) ∧
          isCont (rest.getD 2 0) then
        some ((b - 0xF0) * 262144 + (rest.getD 0 0 - 0x80) * 4096 +
          (rest.getD 1 0 - 0x80) * 64 + (rest.getD 2 0 - 0x80), rest.drop 3)
      else none
    else none

/-- Fuel-indexed decoder loop; each step consumes at least one byte, so fuel
equal to the list length (as supplied by `utf8DecodeChars`) always
suffices (`utf8DecodeAux_mono`). -/
def utf8DecodeAux : Nat → List Nat → Option (List Char)
  | 0, bs => if bs.isEmpty then some [] else none
  | fuel+1, bs =>
    if bs.isEmpty then some []
    else
      match utf8DecodeOne bs with
      | none => none
      | some cr => (utf8DecodeAux fuel cr.2).map (fun cs => Char.ofNat cr.1 :: cs)

/-- A standard UTF-8 decoder on byte lists. -/
def utf8DecodeChars (bs : List Nat) : Option (List Char) :=
  utf8DecodeAux bs.length bs

/-- Decoding per the documented layout: require the 2-byte marker, read the
body up to the terminating zero byte, UTF-8-decode it. -/
def decode_string (bs : List Nat) : Option String :=
  match bs with
  | 0xC3 :: 0x9E :: rest =>
    (utf8DecodeChars (rest.takeWhile (fun b => b != 0))).map String.mk
  | _ => none

/-!
## Concrete fixture nodes used by the claim-level checks
-/

/-- A node with a single part of 300 weight-1 literal alternatives
(`TownName(0, "a", None, [[TownString("x", 1)] * 300])`). -/
def node300 : TownName :=
  ⟨0, "a", none, [List.replicate 300 (TownEntry.string "x" 1)]⟩

/-- A node with a single part of 64772 weight-1 literal alternatives. -/
def nodeBig : TownName :=
  ⟨0, "a", none, [List.replicate 64772 (TownEntry.string "x" 1)]⟩

-- Sanity check (spec §8, Scenario B input shape, actual behaviour): a part of
-- 300 entries is cut once; the parent keeps one reference of weight 255
-- followed by the 45 leftover literals.
/-- Whether an entry is a `TownReference` whose target is `t`. -/
def TownEntry.isRefTo (t : String) : TownEntry → Bool
  | .reference r _ => r == t
  | .string _ _ => false

/-- Whether some part of the node contains a reference to id `t`. -/
def refersTo (t : String) (n : TownName) : Bool :=
  n.content.any (fun part => part.any (TownEntry.isRefTo t))

/-- A trivial one-part, one-literal node with id `a`. -/
def nodeSimple : TownName := ⟨0, "a", none, [[TownEntry.string "x" 1]]⟩

/-- A node with id `a` and literal text `y` (same id as `nodeSimple`). -/
def nodeDup : TownName := ⟨0, "a", none, [[TownEntry.string "y" 1]]⟩

/-- A node referencing both `a` (defined elsewhere) and `c` (defined
nowhere). -/
def nodeB : TownName :=
  ⟨0, "b", none, [[TownEntry.reference "a" 1, TownEntry.reference "c" 1]]⟩

/-- A node that references its own id in its first part but whose second
part has weight sum zero. -/
def nodeSelf : TownName :=
  ⟨0, "a", none, [[TownEntry.reference "a" 1], [TownEntry.string "x" 0]]⟩

set_option maxRecDepth 4000 in
example :
    divideTownNames node300 =
      [⟨1, "a__0", none, [List.replicate 255 (TownEntry.string "x" 1)]⟩,
       ⟨0, "a", none,
        [TownEntry.reference "a__0" 255 :: List.replicate 45 (TownEntry.string "x" 1)]⟩] := by
  decide

-- Sanity check (spec §8, Scenario A): `[["Aix" weight 1, "Caen" weight 3]]`
-- emits alternative count 2, entropy start, width ceil(log2 4) = 2 and the
-- two literals in order.
example :
    ((TownNames.init
        [⟨0, "root", none,
          [[TownEntry.string "Aix" 1, TownEntry.string "Caen" 3]]⟩]).output []).map
      (fun r => r.2) =
    .ok ([21, 0, 0, 0, 0xFF, 0x0F, 0, 1] ++
      [2, 0, 2] ++
      [1, 0xC3, 0x9E, 65, 105, 120, 0] ++
      [3, 0xC3, 0x9E, 67, 97, 101, 110, 0]) := by
  decide

/-!
## Lemmas about the splitting loop
-/

/-- The loop exits (leaving the part unchanged, cutting no chunk) as soon as
`len(part) > max` or `max > 1` fails. -/
lemma chunkLoop_stop (ID : String) (part : List TownEntry) (mx : Nat)
    (h : part.length ≤ mx ∨ mx ≤ 1) : chunkLoop ID part mx = (part, []) := by
  match mx with
  | 0 => rfl
  | 1 => rfl
  | m+2 =>
    have hlen : part.length ≤ m + 2 := by omega
    simp [chunkLoop, Nat.not_lt.mpr hlen]

/-- One iteration of the loop when both conditions hold. -/
lemma chunkLoop_step (ID : String) (part : List TownEntry) (m : Nat)
    (h : m + 2 < part.length) :
    chunkLoop ID part (m+2) =
      (TownEntry.reference (ID ++ "__" ++ toString (255 - (m+2)))
          (min part.length 255) :: (chunkLoop ID (part.drop 255) (m+1)).1,
       (255 - (m+2), part.take (min part.length 255))
          :: (chunkLoop ID (part.drop 255) (m+1)).2) := by
  simp [chunkLoop, h]

/-- Unfolding of `divideAux` at positive fuel (the `let`s zeta-reduced). -/
lemma divideAux_succ (fuel : Nat) (t : TownName) :
    divideAux (fuel+1) t =
      (t.content.map (fun part =>
        ((chunkLoop t.ID part 255).1,
         (chunkLoop t.ID part 255).2.flatMap (fun kc =>
           divideAux fuel
             ⟨t.entropyStart + ceilLog2 part.length - 8,
              t.ID ++ "__" ++ toString kc.1, none, [kc.2]⟩)))).flatMap
        (fun p => p.2) ++
      [⟨t.entropyStart, t.ID, t.name,
        (t.content.map (fun part =>
          ((chunkLoop t.ID part 255).1,
           (chunkLoop t.ID part 255).2.flatMap (fun kc =>
             divideAux fuel
               ⟨t.entropyStart + ceilLog2 part.length - 8,
                t.ID ++ "__" ++ toString kc.1, none, [kc.2]⟩)))).map
          (fun p => p.1)⟩] := rfl

/-- The last node produced by the splitting step is always the parent node
with every part rewritten by the loop. -/
lemma divideAux_getLast (fuel : Nat) (t : TownName) :
    (divideAux (fuel+1) t).getLast? =
      some ⟨t.entropyStart, t.ID, t.name,
        t.content.map (fun part => (chunkLoop t.ID part 255).1)⟩ := by
  rw [divideAux_succ, List.getLast?_concat]
  simp [List.map_map, Function.comp]

/-- Mapping every element to a pair with an empty second component makes the
flat-map of the second components empty. -/
lemma map_pair_flatMap_nil {α γ : Type} (l : List α) :
    (l.map (fun a => (a, ([] : List γ)))).flatMap (fun p => p.2) = [] := by
  induction l with
  | nil => rfl
  | cons a l ih => simp [ih]

/-- A node all of whose parts already fit is passed through unchanged. -/
lemma divideAux_short (fuel : Nat) (t : TownName)
    (h : ∀ part ∈ t.content, part.length ≤ 255) :
    divideAux (fuel+1) t = [t] := by
  rw [divideAux_succ]
  have hloop : ∀ part ∈ t.content,
      (fun part =>
        ((chunkLoop t.ID part 255).1,
         (chunkLoop t.ID part 255).2.flatMap (fun kc =>
           divideAux fuel
             ⟨t.entropyStart + ceilLog2 part.length - 8,
              t.ID ++ "__" ++ toString kc.1, none, [kc.2]⟩))) part =
      (fun part => (part, ([] : List TownName))) part := by
    intro part hp
    dsimp only
    rw [chunkLoop_stop t.ID part 255 (Or.inl (h part hp))]
    rfl
  rw [List.map_congr_left hloop, map_pair_flatMap_nil]
  simp only [List.map_map, List.nil_append]
  have hm : List.map
      ((fun p => (p : List TownEntry × List TownName).1) ∘
        fun part => (part, ([] : List TownName))) t.content = t.content := by
    simp [Function.comp_def]
  rw [hm]

/-- Length of the rewritten part when the loop runs on a uniform part of
`2 + 255*d` entries starting with `max = 1 + d`: the loop performs `d`
iterations (one reference appended each) and then stops with 2 entries left,
leaving `2 + d` entries.  Instantiated at `d = 254` this exhibits the
capacity overflow of `divideTownNames`. -/
lemma chunkLoop_replicate_length (ID : String) (a : TownEntry) :
    ∀ d : Nat,
      ((chunkLoop ID (List.replicate (2 + 255 * d) a) (1 + d)).1).length
        = 2 + d := by
  intro d
  induction d with
  | zero => rfl
  | succ k ih =>
    have h1 : 1 + (k + 1) = k + 2 := by omega
    have hguard : k + 2 < (List.replicate (2 + 255 * (k + 1)) a).length := by
      simp [List.length_replicate]
      omega
    rw [h1, chunkLoop_step ID _ k hguard, List.drop_replicate]
    have h2 : 2 + 255 * (k + 1) - 255 = 2 + 255 * k := by omega
    have h3 : k + 1 = 1 + k := by omega
    rw [h2, h3] at *
    simp [List.length_cons, ih]
    omega

/-!
## Claim C1: splitting a 300-entry part
-/

/-- C1 (counterexample): for a node with one part of 300 weight-1 literal
alternatives, `divideTownNames` does NOT produce two synthesized nodes with a
parent part of two references.  It produces exactly ONE synthesized node (the
other output node being the rewritten parent itself), and the rewritten
parent part contains exactly ONE `Reference` alternative (followed by the 45
leftover literals), so the claimed counts of 2 are both wrong. -/
theorem C1_counterexample :
    (divideTownNames node300).dropLast.length = 1 ∧
    ((divideTownNames node300).getLast?.map (fun t =>
      t.content.map (fun p => p.countP (fun e => TownEntry.isReference e)))) =
      some [1] ∧
    ¬((divideTownNames node300).dropLast.length = 2) := by
  set_option maxRecDepth 4000 in decide

/-- C1 (amended): splitting a node with a single part of 300 alternatives
produces exactly one synthesized node, holding the first 255 alternatives at
entropy start `e + ceil(log2 300) - 8 = e + 1`, followed by the rewritten
parent whose part is one `Reference` of weight 255 to the synthesized node
followed by the remaining 45 original alternatives (46 alternatives in all;
total weight mass `255 + 45` for weight-1 alternatives, i.e. 300). -/
theorem C1_thm (e : Nat) (id : String) (l : List TownEntry)
    (h : l.length = 300) :
    divideTownNames ⟨e, id, none, [l]⟩ =
      [⟨e + 1, id ++ "__0", none, [l.take 255]⟩,
       ⟨e, id, none,
        [TownEntry.reference (id ++ "__0") 255 :: l.drop 255]⟩] := by
  have ht : totalAlts ⟨e, id, none, [l]⟩ = 300 := by simp [totalAlts, h]
  rw [divideTownNames, ht, divideAux_succ]
  have hguard : 253 + 2 < l.length := by omega
  have hstop : chunkLoop id (l.drop 255) (253+1) = (l.drop 255, []) := by
    apply chunkLoop_stop
    left
    simp [List.length_drop, h]
  have e1 : chunkLoop id l 255 = chunkLoop id l (253+2) := rfl
  have hmin : min l.length 255 = 255 := by omega
  have hc : chunkLoop id l 255 =
      (TownEntry.reference (id ++ "__" ++ toString 0) 255 :: l.drop 255,
       [(0, l.take 255)]) := by
    rw [e1, chunkLoop_step id l 253 hguard, hstop, hmin]
  have h9 : ceilLog2 l.length = 9 := by rw [h]; rfl
  have hid : id ++ "__" ++ toString 0 = id ++ "__0" := by
    rw [show (toString 0 : String) = "0" by decide, String.append_assoc,
      show ("__" ++ "0" : String) = "__0" by decide]
  have he1 : e + 9 - 8 = e + 1 := by omega
  have hshort : divideAux 300
      ⟨e + 1, id ++ "__0", none, [l.take 255]⟩ =
      [⟨e + 1, id ++ "__0", none, [l.take 255]⟩] := by
    have e2 : divideAux 300 ⟨e + 1, id ++ "__0", none, [l.take 255]⟩ =
        divideAux (299+1) ⟨e + 1, id ++ "__0", none, [l.take 255]⟩ := rfl
    rw [e2]
    apply divideAux_short
    intro part hp
    simp at hp
    subst hp
    simp [List.length_take, h]
  simp only [List.map_cons, List.map_nil, hc, h9, hid, he1,
    List.flatMap_cons, List.flatMap_nil, List.nil_append, List.append_nil]
  rw [hshort]
  simp

set_option maxRecDepth 4000 in
/-- C1 (witness): the amended theorem instantiated at the literal 300-entry
part of Scenario B. -/
theorem C1_witness :
    (List.replicate 300 (TownEntry.string "x" 1)).length = 300 ∧
    divideTownNames ⟨0, "a", none,
        [List.replicate 300 (TownEntry.string "x" 1)]⟩ =
      [⟨0 + 1, "a" ++ "__0", none,
        [(List.replicate 300 (TownEntry.string "x" 1)).take 255]⟩,
       ⟨0, "a", none,
        [TownEntry.reference ("a" ++ "__0") 255 ::
          (List.replicate 300 (TownEntry.string "x" 1)).drop 255]⟩] :=
  ⟨by decide, C1_thm 0 "a" _ (by decide)⟩

/-!
## Claim C2: the capacity invariant `1 ≤ len(part) ≤ 255`
-/

/-- C2 (code bug): the capacity invariant fails on a part of 64772
alternatives.  The loop guard `max > 1` stops the splitting after 254
iterations even though 2 entries are still left over, so the rewritten
parent part holds 254 references plus those 2 entries — 256 alternatives,
one more than the one-byte count field can take (`output_byte(len(part))`
would raise `OverflowError` during emission).  This theorem evaluates the
splitting step at that input: the last node of the compiled sequence (the
rewritten parent) has a part of length 256. -/
theorem C2_thm :
    (divideTownNames nodeBig).getLast?.map
      (fun t => t.content.map List.length) = some [256] := by
  have h1 : totalAlts nodeBig = 64772 := by
    simp only [totalAlts, nodeBig, List.map_cons, List.map_nil,
      List.length_replicate, List.sum_cons, List.sum_nil]
    rfl
  rw [divideTownNames, h1, divideAux_getLast]
  have h2 : (chunkLoop "a"
      (List.replicate 64772 (TownEntry.string "x" 1)) 255).1.length = 256 := by
    have e1 : chunkLoop "a" (List.replicate 64772 (TownEntry.string "x" 1)) 255
        = chunkLoop "a" (List.replicate (2 + 255 * 254)
            (TownEntry.string "x" 1)) (1 + 254) := by norm_num
    rw [e1, chunkLoop_replicate_length]
  simp only [nodeBig, Option.map_some', List.map_cons, List.map_nil, h2]

/-!
## Claim C3: weight conservation across a split
-/

/-- C3 (counterexample): for the 300-entry part of Scenario B, the sum of the
weights of the `Reference` alternatives introduced into the rewritten parent
part is 255 (one reference of weight 255), not 300 (the alternative count of
the original part): 45 alternatives stay in the parent part and carry their
own weight. -/
theorem C3_counterexample :
    ((divideTownNames node300).getLast?.map (fun t =>
      t.content.map (fun p =>
        (((p.filter (fun a => TownEntry.isReference a)).map
          TownEntry.proba)).sum))) = some [255] ∧
    (255 : Nat) ≠ 300 := by
  set_option maxRecDepth 4000 in decide

/-- C3 (amended): for every part and every loop bound, the sum of the weights
of the references the loop introduces (the first `k` entries of the rewritten
part, where `k` is the number of chunks cut) equals the number of
alternatives removed from the part; equivalently this sum plus the number of
retained alternatives equals the original alternative count.  The claimed
equality with the whole original count holds only when no alternatives are
retained. -/
theorem C3_thm (ID : String) :
    ∀ (mx : Nat) (part : List TownEntry),
      (((chunkLoop ID part mx).1.take
          (chunkLoop ID part mx).2.length).map TownEntry.proba).sum
        + ((chunkLoop ID part mx).1.drop
            (chunkLoop ID part mx).2.length).length
        = part.length := by
  intro mx
  induction mx with
  | zero => intro part; simp [chunkLoop]
  | succ k ih =>
    intro part
    match k with
    | 0 => simp [chunkLoop]
    | m+1 =>
      by_cases hg : m + 2 < part.length
      · rw [chunkLoop_step ID part m hg]
        simp only [List.length_cons, List.take_succ_cons, List.map_cons,
          List.sum_cons, List.drop_succ_cons, TownEntry.proba]
        have := ih (part.drop 255)
        have hdl : (part.drop 255).length = part.length - 255 := by simp
        omega
      · rw [chunkLoop_stop ID part (m+2) (Or.inl (by omega))]
        simp

/-!
## Claim C7: the alternative byte encoding
-/

/-- Bitwise-or with `0x80` is addition of 128 when the low 7 bits hold the
whole value. -/
lemma lor_128_of_lt : ∀ p : Nat, p < 128 → (0x80 ||| p) = 128 + p := by
  decide

set_option maxRecDepth 10000 in
/-- Bitwise-or with `0x80` keeps a byte a byte. -/
lemma lor_128_lt_256 : ∀ p : Nat, p ≤ 255 → (0x80 ||| p) < 256 := by
  decide

set_option maxRecDepth 10000 in
/-- C7 (counterexample): a `TownString` of weight 200 is emitted with first
byte 200, whose high bit is set although the entry is not a `Reference`, so
"high bit set ⇔ Reference" fails (and for references of weight ≥ 128 the low
7 bits do not hold the weight either; the splitting step itself emits
references of weight up to 255). -/
theorem C7_counterexample :
    outputEntry (fun _ => none) (TownEntry.string "x" 200) =
      .ok (200 :: output_string "x") ∧
    (TownEntry.string "x" 200).isReference = false ∧
    (128 ≤ 200) := by
  refine ⟨by decide, by decide, by decide⟩

/-- C7 (amended): for every alternative of weight at most 127 that is
successfully emitted, the first emitted byte has its high bit set iff the
alternative is a `Reference`; for a `Reference` the low 7 bits are the
weight and the byte is followed by the referenced node's one-byte registry
handle, for a literal the byte is the weight itself and is followed by the
literal's string encoding.  (For weights 128..255 — which the splitting
step can produce — the encoding is ambiguous and the weight is not
recoverable, see the counterexample.) -/
theorem C7_thm (IDs : String → Option Nat) (a : TownEntry) (out : List Nat)
    (hw : a.proba ≤ 127) (hok : outputEntry IDs a = .ok out) :
    ∃ b0 rest, out = b0 :: rest ∧
      (128 ≤ b0 ↔ a.isReference = true) ∧
      (∀ r p, a = TownEntry.reference r p →
        b0 % 128 = p ∧ ∃ hd, IDs r = some hd ∧ rest = [hd]) ∧
      (∀ t p, a = TownEntry.string t p →
        b0 = p ∧ rest = output_string t) := by
  cases a with
  | reference r p =>
    simp only [TownEntry.proba] at hw
    have h1 : output_byte (0x80 ||| p) = .ok [128 + p] := by
      rw [lor_128_of_lt p (by omega)]
      simp only [output_byte]
      rw [if_pos (by omega)]
    cases hr : IDs r with
    | none =>
      simp only [outputEntry, h1, dictGet, hr] at hok
      exact Except.noConfusion hok
    | some hd =>
      by_cases hh : hd < 256
      · have h2 : output_byte hd = .ok [hd] := by
          simp only [output_byte]
          rw [if_pos hh]
        simp only [outputEntry, h1, dictGet, hr, h2] at hok
        have hout : out = (128 + p) :: [hd] := by
          simpa using hok.symm
        refine ⟨128 + p, [hd], hout, ?_, ?_, ?_⟩
        · simp only [TownEntry.isReference]
          simp
        · intro r2 p2 h2eq
          cases h2eq
          exact ⟨by omega, hd, hr, rfl⟩
        · intro t2 p2 h2eq
          cases h2eq
      · have h2 : output_byte hd = .error .overflowError := by
          simp only [output_byte]
          rw [if_neg hh]
        simp only [outputEntry, h1, dictGet, hr, h2] at hok
        exact Except.noConfusion hok
  | string t p =>
    simp only [TownEntry.proba] at hw
    have h1 : output_byte p = .ok [p] := by
      simp only [output_byte]
      rw [if_pos (by omega)]
    simp only [outputEntry, h1] at hok
    have hout : out = p :: output_string t := by simpa using hok.symm
    refine ⟨p, output_string t, hout, ?_, ?_, ?_⟩
    · simp only [TownEntry.isReference]
      simp
      omega
    · intro r2 p2 h2eq
      cases h2eq
    · intro t2 p2 h2eq
      cases h2eq
      exact ⟨rfl, rfl⟩

/-!
## Claim C8: degenerate weight sums
-/

/-- A part whose weights sum to zero can never be emitted successfully: after
the count and entropy bytes the `math.ceil(math.log2(sum))` computation
raises. -/
lemma outputPart_zero_not_ok (IDs : String → Option Nat) (es : Nat)
    (part : List TownEntry) (hz : sumProba part = 0) (b : List Nat) :
    outputPart IDs es part ≠ .ok b := by
  simp only [outputPart]
  cases h1 : output_byte part.length with
  | error er => simp
  | ok pb =>
    cases h2 : output_byte es with
    | error er => simp
    | ok eb => simp [hz]

/-- If some part of the list has zero weight sum, the part loop fails. -/
lemma outputParts_zero_err (IDs : String → Option Nat) (es : Nat) :
    ∀ (parts : List (List TownEntry)),
      (∃ part ∈ parts, sumProba part = 0) →
      ∃ er, outputParts IDs es parts = .error er := by
  intro parts
  induction parts with
  | nil =>
    rintro ⟨part, hmem, _⟩
    exact absurd hmem (by simp)
  | cons q rest ih =>
    rintro ⟨part, hmem, hz⟩
    cases hq : outputPart IDs es q with
    | error er => exact ⟨er, by simp [outputParts, hq]⟩
    | ok bq =>
      rcases List.mem_cons.mp hmem with heq | hmem2
      · subst heq
        exact absurd hq (outputPart_zero_not_ok IDs es part hz bq)
      · rcases ih ⟨part, hmem2, hz⟩ with ⟨er, her⟩
        exact ⟨er, by simp [outputParts, hq, her]⟩

/-- C8 (counterexample): a node whose second part has zero weight sum but
whose first part holds an unresolved reference fails with `KeyError`
(`UnresolvedReference`), not with the `ValueError` of the degenerate
logarithm — so "fails with a DegenerateWeightSum error, for every such
node" is wrong as stated. -/
theorem C8_counterexample :
    TownName.output
        ⟨0, "n", none, [[TownEntry.reference "z" 1], [TownEntry.string "x" 0]]⟩
        [] (fun k => if k = "n" then some 0 else none) =
      .error (.keyError "z") ∧
    sumProba [TownEntry.string "x" 0] = 0 ∧
    EmitError.keyError "z" ≠ EmitError.valueError := by
  refine ⟨by decide, by decide, by decide⟩

/-- An `Except` computation that can never return `ok` returns some error. -/
lemma exists_error_of_not_ok {α : Type} (x : Except EmitError α)
    (h : ∀ v, x ≠ .ok v) : ∃ er, x = .error er := by
  cases x with
  | error er => exact ⟨er, rfl⟩
  | ok v => exact absurd rfl (h v)

/-- C8 (amended): emitting a node one of whose parts has zero weight sum
always fails — but with the first error the sequential emitter encounters.
In particular (second conjunct) when the zero-sum part is the node's first
part and everything emitted before it is in range (registered handle below
256, no display names, in-range part count, part length and entropy start),
the error is exactly the degenerate-logarithm `ValueError`
(`DegenerateWeightSum`). -/
theorem C8_thm (IDs : String → Option Nat) (t : TownName) (b : List Nat)
    (hz : ∃ part ∈ t.content, sumProba part = 0) :
    (∃ er, TownName.output t b IDs = .error er) ∧
    (∀ h0 p0 rest, t.name = none → IDs t.ID = some h0 → h0 < 256 →
      t.content = p0 :: rest → sumProba p0 = 0 → p0.length < 256 →
      t.entropyStart < 256 → t.content.length < 256 →
      TownName.output t b IDs = .error .valueError) := by
  constructor
  · apply exists_error_of_not_ok
    intro v hok
    simp only [TownName.output] at hok
    rcases outputParts_zero_err IDs t.entropyStart t.content hz with ⟨er0, her0⟩
    split at hok
    · exact Except.noConfusion hok
    · split at hok
      · exact Except.noConfusion hok
      · split at hok
        · exact Except.noConfusion hok
        · split at hok
          · exact Except.noConfusion hok
          · split at hok
            · exact Except.noConfusion hok
            · rename_i ps heq
              rw [her0] at heq
              exact Except.noConfusion heq
  · intro h0 p0 rest hn hg hh0 hcont hz0 hp0len hes hclen
    have e1 : dictGet IDs t.ID = .ok h0 := by rw [dictGet, hg]
    have e2 : output_byte (h0 + (if t.name.isSome then 0x80 else 0)) =
        .ok [h0] := by
      rw [hn]
      simp [output_byte, hh0]
    have e3 : outputNames t.name = .ok [] := by
      rw [hn]
      rfl
    have e4 : output_byte t.content.length = .ok [t.content.length] := by
      simp [output_byte, hclen]
    have e5 : outputPart IDs t.entropyStart p0 = .error .valueError := by
      simp only [outputPart]
      rw [show output_byte p0.length = .ok [p0.length] by
        simp [output_byte, hp0len]]
      rw [show output_byte t.entropyStart = .ok [t.entropyStart] by
        simp [output_byte, hes]]
      simp [hz0]
    have e6 : outputParts IDs t.entropyStart t.content = .error .valueError := by
      rw [hcont]
      simp only [outputParts, e5]
    simp only [TownName.output, e1, e2, e3, e4, e6]

set_option maxRecDepth 10000 in
/-- C8 (witness): the amended theorem applied to a concrete node whose only
part is `[TownString("x", 0)]`. -/
theorem C8_witness :
    (∃ part ∈ ([[TownEntry.string "x" 0]] : List (List TownEntry)),
      sumProba part = 0) ∧
    TownName.output ⟨0, "n", none, [[TownEntry.string "x" 0]]⟩ []
      (fun k => if k = "n" then some 0 else none) = .error .valueError :=
  ⟨⟨[TownEntry.string "x" 0], by decide, by decide⟩,
   (C8_thm (fun k => if k = "n" then some 0 else none)
     ⟨0, "n", none, [[TownEntry.string "x" 0]]⟩ []
     ⟨[TownEntry.string "x" 0], by decide, by decide⟩).2
     0 [TownEntry.string "x" 0] [] rfl (by decide) (by decide) rfl
     (by decide) (by decide) (by decide) (by decide)⟩

/-!
## Claim C9: string encoding round trip
-/

/-- Decoding one scalar from the UTF-8 encoding of a code point below
`0x110000` yields the code point back and consumes exactly the encoded
bytes. -/
lemma utf8DecodeOne_encode (c : Nat) (hc : c < 0x110000) (rest : List Nat) :
    utf8DecodeOne (utf8EncodeChar c ++ rest) = some (c, rest) := by
  by_cases h1 : c < 0x80
  · rw [utf8EncodeChar, if_pos h1]
    simp only [List.cons_append, List.nil_append]
    simp only [utf8DecodeOne]
    rw [if_pos h1]
  · by_cases h2 : c < 0x800
    · rw [utf8EncodeChar, if_neg h1, if_pos h2]
      simp only [List.cons_append, List.nil_append]
      simp only [utf8DecodeOne]
      rw [if_neg (by omega), if_neg (by omega), if_pos (by omega)]
      rw [if_pos (by
        constructor
        · simp
        · simp only [List.getD_cons_zero, isCont, Bool.and_eq_true,
            decide_eq_true_eq]
          omega)]
      simp only [List.getD_cons_zero, List.drop_succ_cons, List.drop_zero,
        Option.some.injEq, Prod.mk.injEq]
      exact ⟨by omega, trivial⟩
    · by_cases h3 : c < 0x10000
      · rw [utf8EncodeChar, if_neg h1, if_neg h2, if_pos h3]
        simp only [List.cons_append, List.nil_append]
        simp only [utf8DecodeOne]
        rw [if_neg (by omega), if_neg (by omega), if_neg (by omega),
          if_pos (by omega)]
        rw [if_pos (by
          refine ⟨by simp, ?_, ?_⟩ <;>
            simp only [List.getD_cons_zero, List.getD_cons_succ, isCont,
              Bool.and_eq_true, decide_eq_true_eq] <;>
            omega)]
        simp only [List.getD_cons_zero, List.getD_cons_succ,
          List.drop_succ_cons, List.drop_zero, Option.some.injEq,
          Prod.mk.injEq]
        exact ⟨by omega, trivial⟩
      · rw [utf8EncodeChar, if_neg h1, if_neg h2, if_neg h3]
        simp only [List.cons_append, List.nil_append]
        simp only [utf8DecodeOne]
        rw [if_neg (by omega), if_neg (by omega), if_neg (by omega),
          if_neg (by omega), if_pos (by omega)]
        rw [if_pos (by
          refine ⟨by simp, ?_, ?_, ?_⟩ <;>
            simp only [List.getD_cons_zero, List.getD_cons_succ, isCont,
              Bool.and_eq_true, decide_eq_true_eq] <;>
            omega)]
        simp only [List.getD_cons_zero, List.getD_cons_succ,
          List.drop_succ_cons, List.drop_zero, Option.some.injEq,
          Prod.mk.injEq]
        exact ⟨by omega, trivial⟩

set_option maxRecDepth 10000 in
/-- A successful single-scalar decode consumes at least one byte. -/
lemma utf8DecodeOne_shrink (bs : List Nat) (cr : Nat × List Nat)
    (h : utf8DecodeOne bs = some cr) : cr.2.length < bs.length := by
  match bs with
  | [] => exact Option.noConfusion h
  | b :: rest =>
    simp only [utf8DecodeOne] at h
    split_ifs at h <;>
      first
        | exact Option.noConfusion h
        | (cases h
           simp only [List.length_drop, List.length_cons]
           omega)

/-- The decoder loop is independent of the fuel, provided the fuel covers
the list length. -/
lemma utf8DecodeAux_mono : ∀ (f1 f2 : Nat) (bs : List Nat),
    bs.length ≤ f1 → bs.length ≤ f2 →
    utf8DecodeAux f1 bs = utf8DecodeAux f2 bs := by
  intro f1
  induction f1 with
  | zero =>
    intro f2 bs h1 h2
    have hbs : bs = [] := List.eq_nil_of_length_eq_zero (Nat.le_zero.mp h1)
    subst hbs
    cases f2 with
    | zero => rfl
    | succ f2a => simp [utf8DecodeAux]
  | succ f1a ih =>
    intro f2 bs h1 h2
    cases f2 with
    | zero =>
      have hbs : bs = [] := List.eq_nil_of_length_eq_zero (Nat.le_zero.mp h2)
      subst hbs
      simp [utf8DecodeAux]
    | succ f2a =>
      cases bs with
      | nil => simp [utf8DecodeAux]
      | cons b rest =>
        simp only [utf8DecodeAux, List.isEmpty_cons, Bool.false_eq_true,
          if_false]
        cases hone : utf8DecodeOne (b :: rest) with
        | none => rfl
        | some cr =>
          have hsh := utf8DecodeOne_shrink _ _ hone
          simp only [List.length_cons] at hsh h1 h2
          dsimp only
          rw [ih f2a cr.2 (by omega) (by omega)]

/-- The length of an encoded code point is positive. -/
lemma utf8EncodeChar_length_pos (c : Nat) : 0 < (utf8EncodeChar c).length := by
  rw [utf8EncodeChar]
  split_ifs <;> simp

/-- Decoding the UTF-8 encoding of one code point below `0x110000` consumes
exactly the encoded bytes and yields the code point back. -/
lemma utf8DecodeChars_encode (c : Nat) (hc : c < 0x110000) (rest : List Nat) :
    utf8DecodeChars (utf8EncodeChar c ++ rest) =
      (utf8DecodeChars rest).map (fun cs => Char.ofNat c :: cs) := by
  have hpos := utf8EncodeChar_length_pos c
  rw [utf8DecodeChars, utf8DecodeChars]
  have hlen : (utf8EncodeChar c ++ rest).length =
      ((utf8EncodeChar c).length - 1 + rest.length) + 1 := by
    have happ : (utf8EncodeChar c ++ rest).length =
        (utf8EncodeChar c).length + rest.length := List.length_append _ _
    omega
  rw [hlen]
  simp only [utf8DecodeAux]
  rw [if_neg (by
    intro hemp
    rw [List.isEmpty_eq_true, List.append_eq_nil] at hemp
    have hl0 := congrArg List.length hemp.1
    simp only [List.length_nil] at hl0
    omega)]
  rw [utf8DecodeOne_encode c hc rest]
  dsimp only
  rw [utf8DecodeAux_mono ((utf8EncodeChar c).length - 1 + rest.length)
    rest.length rest (by omega) (Nat.le_refl _)]

/-- The UTF-8 encoding of a nonzero code point contains no zero byte (the
single-byte case is the code point itself; all bytes of multi-byte
encodings are at least `0x80`). -/
lemma utf8EncodeChar_ne_zero (c : Nat) (hc : 0 < c) :
    ∀ b ∈ utf8EncodeChar c, b ≠ 0 := by
  intro b hb
  rw [utf8EncodeChar] at hb
  split_ifs at hb with h1 h2 h3
  · simp at hb
    omega
  · simp at hb
    rcases hb with h | h <;> omega
  · simp at hb
    rcases hb with h | h | h <;> omega
  · simp at hb
    rcases hb with h | h | h | h <;> omega

/-- Reading up to the terminating zero recovers exactly the body when the
body itself contains no zero byte. -/
lemma takeWhile_append_zero (l : List Nat) (h : ∀ b ∈ l, b ≠ 0) :
    (l ++ [0]).takeWhile (fun b => b != 0) = l := by
  induction l with
  | nil => simp
  | cons a l ih =>
    have ha : a ≠ 0 := h a (by simp)
    simp only [List.cons_append, List.takeWhile_cons]
    rw [if_pos (by simp [ha])]
    rw [ih (fun b hb => h b (by simp [hb]))]

/-- Every `Char` is a scalar value below `0x110000`. -/
lemma char_toNat_lt (c : Char) : c.toNat < 0x110000 := by
  rcases c with ⟨v, hv⟩
  rcases hv with h | h
  · exact Nat.lt_trans h (by norm_num)
  · exact h.2

/-- Decoding the concatenated UTF-8 encodings of a character list recovers
the list. -/
lemma utf8DecodeChars_flatMap (cs : List Char) :
    utf8DecodeChars (cs.flatMap (fun ch => utf8EncodeChar ch.toNat)) =
      some cs := by
  induction cs with
  | nil => rfl
  | cons c cs ih =>
    rw [List.flatMap_cons, utf8DecodeChars_encode c.toNat (char_toNat_lt c),
      ih, Option.map_some']
    rw [Char.ofNat_toNat]

/-- C9 (counterexample): the round trip fails on a string containing the
`U+0000` character: its UTF-8 encoding is the zero byte, which the
documented layout cannot distinguish from the terminator, so decoding stops
early and returns the empty string. -/
theorem C9_counterexample :
    decode_string (output_string "\x00") = some "" ∧
    ("" : String) ≠ "\x00" := by
  refine ⟨by decide, by decide⟩

/-- C9 (amended): for every string containing no `U+0000` character —
including strings with multi-byte UTF-8 characters and with the reserved
marker bytes `0xC3 0x9E` (the character `Þ`) — encoding with
`output_string` and decoding per the documented marker/terminator layout
recovers the original string unchanged. -/
theorem C9_thm (s : String) (h : ∀ c ∈ s.data, c.toNat ≠ 0) :
    decode_string (output_string s) = some s := by
  have hnz : ∀ b ∈ utf8Bytes s, b ≠ 0 := by
    intro b hb
    rw [utf8Bytes] at hb
    rcases List.mem_flatMap.mp hb with ⟨c, hc, hbc⟩
    exact utf8EncodeChar_ne_zero c.toNat (Nat.pos_of_ne_zero (h c hc)) b hbc
  rw [output_string]
  simp only [decode_string]
  rw [takeWhile_append_zero _ hnz]
  rw [utf8Bytes, utf8DecodeChars_flatMap, Option.map_some']

/-- C9 (witness): the amended round trip at the string `Þx`, whose first
character encodes exactly as the reserved marker bytes `0xC3 0x9E`. -/
theorem C9_witness :
    (∀ c ∈ ("Þx" : String).data, c.toNat ≠ 0) ∧
    decode_string (output_string "Þx") = some "Þx" :=
  ⟨by decide, C9_thm "Þx" (by decide)⟩

/-!
## Claim C4: unresolved references
-/

/-- `refersTo` as an existential. -/
lemma refersTo_iff (t : String) (n : TownName) :
    refersTo t n = true ↔
      ∃ part ∈ n.content, ∃ p, TownEntry.reference t p ∈ part := by
  rw [refersTo, List.any_eq_true]
  constructor
  · rintro ⟨part, hp, hany⟩
    rw [List.any_eq_true] at hany
    rcases hany with ⟨en, he, hmatch⟩
    cases en with
    | reference r q =>
      simp only [TownEntry.isRefTo, beq_iff_eq] at hmatch
      subst hmatch
      exact ⟨part, hp, q, he⟩
    | string s q => simp [TownEntry.isRefTo] at hmatch
  · rintro ⟨part, hp, p, he⟩
    refine ⟨part, hp, List.any_eq_true.mpr ⟨TownEntry.reference t p, he, ?_⟩⟩
    simp [TownEntry.isRefTo]

/-- A part containing a reference to an unregistered id can never be emitted
successfully. -/
lemma outputPartEntries_ref_err (IDs : String → Option Nat) (t : String)
    (hnone : IDs t = none) :
    ∀ (part : List TownEntry), (∃ p, TownEntry.reference t p ∈ part) →
      ∀ v, outputPartEntries IDs part ≠ .ok v := by
  intro part
  induction part with
  | nil =>
    rintro ⟨p, hp⟩
    exact absurd hp (by simp)
  | cons en rest ih =>
    rintro ⟨p, hp⟩ v hok
    simp only [outputPartEntries] at hok
    cases he : outputEntry IDs en with
    | error er =>
      rw [he] at hok
      exact Except.noConfusion hok
    | ok b =>
      rw [he] at hok
      cases hrest : outputPartEntries IDs rest with
      | error er =>
        rw [hrest] at hok
        exact Except.noConfusion hok
      | ok bs =>
        rcases List.mem_cons.mp hp with heq | hmem
        · subst heq
          simp only [outputEntry] at he
          cases hob : output_byte (0x80 ||| p) with
          | error er =>
            rw [hob] at he
            exact Except.noConfusion he
          | ok b1 =>
            rw [hob, dictGet, hnone] at he
            exact Except.noConfusion he
        · exact ih ⟨p, hmem⟩ bs hrest

/-- Same, one level up: the whole part fails. -/
lemma outputPart_ref_err (IDs : String → Option Nat) (t : String)
    (hnone : IDs t = none) (es : Nat) (part : List TownEntry)
    (hmem : ∃ p, TownEntry.reference t p ∈ part) :
    ∀ v, outputPart IDs es part ≠ .ok v := by
  intro v hok
  simp only [outputPart] at hok
  cases h1 : output_byte part.length with
  | error er => rw [h1] at hok; exact Except.noConfusion hok
  | ok pb =>
    rw [h1] at hok
    cases h2 : output_byte es with
    | error er => rw [h2] at hok; exact Except.noConfusion hok
    | ok eb =>
      rw [h2] at hok
      cases h3 : (if sumProba part = 0 then Except.error EmitError.valueError
          else output_byte (ceilLog2 (sumProba part))) with
      | error er => rw [h3] at hok; exact Except.noConfusion hok
      | ok wb =>
        rw [h3] at hok
        cases h4 : outputPartEntries IDs part with
        | error er => rw [h4] at hok; exact Except.noConfusion hok
        | ok es2 => exact outputPartEntries_ref_err IDs t hnone part hmem es2 h4

/-- And for the part loop. -/
lemma outputParts_ref_err (IDs : String → Option Nat) (t : String)
    (hnone : IDs t = none) (es : Nat) :
    ∀ (parts : List (List TownEntry)),
      (∃ part ∈ parts, ∃ p, TownEntry.reference t p ∈ part) →
      ∀ v, outputParts IDs es parts ≠ .ok v := by
  intro parts
  induction parts with
  | nil =>
    rintro ⟨part, hmem, _⟩
    exact absurd hmem (by simp)
  | cons q rest ih =>
    rintro ⟨part, hmem, p, hp⟩ v hok
    simp only [outputParts] at hok
    cases hq : outputPart IDs es q with
    | error er => rw [hq] at hok; exact Except.noConfusion hok
    | ok b =>
      rw [hq] at hok
      cases hrest : outputParts IDs es rest with
      | error er => rw [hrest] at hok; exact Except.noConfusion hok
      | ok bs =>
        rcases List.mem_cons.mp hmem with heq | hmem2
        · subst heq
          exact outputPart_ref_err IDs t hnone es part ⟨p, hp⟩ b hq
        · exact ih ⟨part, hmem2, p, hp⟩ bs hrest

/-- A node that refers to an unregistered id can never be emitted
successfully. -/
lemma townName_output_ref_err (IDs : String → Option Nat) (t : String)
    (node : TownName) (b : List Nat) (href : refersTo t node = true)
    (hnone : IDs t = none) :
    ∀ v, TownName.output node b IDs ≠ .ok v := by
  intro v hok
  simp only [TownName.output] at hok
  cases h1 : dictGet IDs node.ID with
  | error er => rw [h1] at hok; exact Except.noConfusion hok
  | ok handle =>
    rw [h1] at hok
    dsimp only at hok
    cases h2 : output_byte (handle + (if node.name.isSome then 0x80 else 0)) with
    | error er => rw [h2] at hok; exact Except.noConfusion hok
    | ok hb =>
      rw [h2] at hok
      cases h3 : outputNames node.name with
      | error er => rw [h3] at hok; exact Except.noConfusion hok
      | ok nb =>
        rw [h3] at hok
        cases h4 : output_byte node.content.length with
        | error er => rw [h4] at hok; exact Except.noConfusion hok
        | ok cb =>
          rw [h4] at hok
          cases h5 : outputParts IDs node.entropyStart node.content with
          | error er => rw [h5] at hok; exact Except.noConfusion hok
          | ok ps =>
            exact outputParts_ref_err IDs t hnone node.entropyStart
              node.content ((refersTo_iff t node).mp href) ps h5

/-- If the `i`-th node of the emission list refers to an id that is not
registered initially and is not the id of any node up to and including
itself, the emission loop fails. -/
lemma outputTowns_ref_err :
    ∀ (l : List TownName) (IDs : String → Option Nat) (last : Nat)
      (file : List Nat) (t : String) (i : Nat) (hi : i < l.length),
      refersTo t (l.get ⟨i, hi⟩) = true →
      (∀ j (hj : j < l.length), j ≤ i → (l.get ⟨j, hj⟩).ID ≠ t) →
      IDs t = none →
      ∃ er, outputTowns IDs last file l = .error er := by
  intro l
  induction l with
  | nil =>
    intro IDs last file t i hi
    exact absurd hi (by simp)
  | cons e rest ih =>
    intro IDs last file t i hi href hids hnone
    have heID : e.ID ≠ t := hids 0 (by simp) (Nat.zero_le i)
    have hnone2 : (fun k => if k = e.ID then some last else IDs k) t = none := by
      simp only
      rw [if_neg (fun hh => heID hh.symm), hnone]
    simp only [outputTowns]
    cases hout : e.output file (fun k => if k = e.ID then some last else IDs k) with
    | error er => exact ⟨er, rfl⟩
    | ok file2 =>
      cases i with
      | zero =>
        have href0 : refersTo t e = true := by simpa using href
        exact absurd hout
          (townName_output_ref_err _ t e file href0 hnone2 file2)
      | succ i2 =>
        have hi2 : i2 < rest.length := by simpa using hi
        have href2 : refersTo t (rest.get ⟨i2, hi2⟩) = true := by
          simpa using href
        have hids2 : ∀ j (hj : j < rest.length), j ≤ i2 →
            (rest.get ⟨j, hj⟩).ID ≠ t := by
          intro j hj hle
          have := hids (j+1) (by simpa using Nat.succ_lt_succ hj)
            (Nat.succ_le_succ hle)
          simpa using this
        exact ih _ (last+1) file2 t i2 hi2 href2 hids2 hnone2

/-- C4 (counterexample): `nodeB` (id `b`) references `a`, which appears only
later in the sequence `[nodeB, nodeSimple]`, and that compilation indeed
fails — but the same grammar with the reference target moved earlier
(`[nodeSimple, nodeB]`) does NOT compile successfully: it fails on `nodeB`'s
other reference `c`, refuting the claim's unconditional success of the
reordered grammar. -/
theorem C4_counterexample :
    refersTo "a" nodeB = true ∧ nodeB.ID ≠ "a" ∧
    ((TownNames.init [nodeB, nodeSimple]).output []).map (fun r => r.2) =
      .error (.keyError "a") ∧
    ((TownNames.init [nodeSimple, nodeB]).output []).map (fun r => r.2) =
      .error (.keyError "c") := by
  refine ⟨by decide, by decide, by decide, by decide⟩

/-- C4 (amended): for every starting registry and node sequence, if the
`i`-th node of the compiled (post-split) sequence contains a `Reference` to
an id `t` that is not registered initially and is not the id of any compiled
node at or before position `i`, then compilation fails with some error.
(The claim's input-sequence-level condition must be read on the compiled
sequence — splitting synthesizes new ids — and the claimed success of the
reordered grammar holds only when the grammar is otherwise fault-free, see
the counterexample.) -/
theorem C4_thm (tn : TownNames) (file : List Nat) (t : String) (i : Nat)
    (hi : i < (tn.entries.flatMap divideTownNames).length)
    (href : refersTo t ((tn.entries.flatMap divideTownNames).get ⟨i, hi⟩) = true)
    (hids : ∀ j (hj : j < (tn.entries.flatMap divideTownNames).length), j ≤ i →
      ((tn.entries.flatMap divideTownNames).get ⟨j, hj⟩).ID ≠ t)
    (hnone : tn.townNameIDS t = none) :
    ∃ er, tn.output file = .error er := by
  rcases outputTowns_ref_err (tn.entries.flatMap divideTownNames)
    tn.townNameIDS tn.lastTownNameID file t i hi href hids hnone with ⟨er, her⟩
  refine ⟨er, ?_⟩
  simp only [TownNames.output, her]

/-- C4 (witness): the amended theorem at a one-node sequence whose node
references the absent id `a`. -/
theorem C4_witness :
    refersTo "a"
      (((TownNames.init
          [⟨0, "b", none, [[TownEntry.reference "a" 1]]⟩]).entries.flatMap
        divideTownNames).get ⟨0, by decide⟩) = true ∧
    ∃ er, (TownNames.init
        [⟨0, "b", none, [[TownEntry.reference "a" 1]]⟩]).output [] =
      .error er :=
  ⟨by decide,
   C4_thm (TownNames.init [⟨0, "b", none, [[TownEntry.reference "a" 1]]⟩])
     [] "a" 0 (by decide) (by decide) (by decide) rfl⟩

/-!
## Claim C5: duplicate identifiers
-/

/-- The emission loop leaves registry entries for ids that do not occur in
the emitted list untouched. -/
lemma outputTowns_stable :
    ∀ (l : List TownName) (IDs : String → Option Nat) (last : Nat)
      (file : List Nat) (res : (String → Option Nat) × Nat × List Nat),
      outputTowns IDs last file l = .ok res →
      ∀ k, k ∉ l.map TownName.ID → res.1 k = IDs k := by
  intro l
  induction l with
  | nil =>
    intro IDs last file res hok k hk
    simp only [outputTowns] at hok
    cases hok
    rfl
  | cons e rest ih =>
    intro IDs last file res hok k hk
    simp only [outputTowns] at hok
    cases hout : e.output file (fun k2 => if k2 = e.ID then some last else IDs k2) with
    | error er =>
      rw [hout] at hok
      exact Except.noConfusion hok
    | ok f2 =>
      rw [hout] at hok
      have hk1 : k ∉ rest.map TownName.ID := fun hh => hk (by simp [hh])
      have hk2 : k ≠ e.ID := fun hh => hk (by simp [hh])
      have := ih _ (last+1) f2 res hok k hk1
      rw [this]
      rw [if_neg hk2]

/-- C5 (amended): duplicate ids are not detected at all.  When the emission
loop succeeds, the final registry maps an id to the handle assigned at its
LAST occurrence in the emitted sequence (handles of earlier occurrences are
silently overwritten); each occurrence is nevertheless emitted with its own
freshly assigned handle (see `C10_thm`). -/
theorem C5_thm :
    ∀ (l : List TownName) (IDs : String → Option Nat) (last : Nat)
      (file : List Nat) (res : (String → Option Nat) × Nat × List Nat),
      outputTowns IDs last file l = .ok res →
      ∀ (id : String) (j : Nat) (hj : j < l.length),
        (l.get ⟨j, hj⟩).ID = id →
        (∀ k (hk : k < l.length), j < k → (l.get ⟨k, hk⟩).ID ≠ id) →
        res.1 id = some (last + j) := by
  intro l
  induction l with
  | nil =>
    intro IDs last file res hok id j hj
    exact absurd hj (by simp)
  | cons e rest ih =>
    intro IDs last file res hok id j hj hjid hlater
    simp only [outputTowns] at hok
    cases hout : e.output file (fun k => if k = e.ID then some last else IDs k) with
    | error er =>
      rw [hout] at hok
      exact Except.noConfusion hok
    | ok f2 =>
      rw [hout] at hok
      cases j with
      | zero =>
        have hid : e.ID = id := by simpa using hjid
        have hnot : id ∉ rest.map TownName.ID := by
          rw [List.mem_map]
          rintro ⟨x, hx, hxid⟩
          rcases List.mem_iff_get.mp hx with ⟨⟨n, hn⟩, hget⟩
          refine hlater (n+1) (by simpa using Nat.succ_lt_succ hn)
            (Nat.succ_pos n) ?_
          rw [← hxid, ← hget]
          simp
        have hstable := outputTowns_stable rest _ (last+1) f2 res hok id hnot
        rw [hstable]
        rw [if_pos hid.symm]
        simp
      | succ j2 =>
        have hj2 : j2 < rest.length := by simpa using hj
        have hjid2 : (rest.get ⟨j2, hj2⟩).ID = id := by simpa using hjid
        have hlater2 : ∀ k (hk : k < rest.length), j2 < k →
            (rest.get ⟨k, hk⟩).ID ≠ id := by
          intro k hk hlt
          have := hlater (k+1) (by simpa using Nat.succ_lt_succ hk)
            (Nat.succ_lt_succ hlt)
          simpa using this
        have := ih _ (last+1) f2 res hok id j2 hj2 hjid2 hlater2
        rw [this]
        simp only [Option.some.injEq]
        omega

/-- C5 (counterexample): two nodes sharing the id `a` compile without any
error — there is no duplicate-identifier check; the two records are emitted
with handles 0 and 1 and the registry ends up mapping `a` to the second
handle. -/
theorem C5_counterexample :
    ((TownNames.init [nodeSimple, nodeDup]).output []).map (fun r => r.2) =
      .ok [11, 0, 0, 0, 255, 15, 0, 1, 1, 0, 0, 1, 195, 158, 120, 0,
           11, 0, 0, 0, 255, 15, 1, 1, 1, 0, 0, 1, 195, 158, 121, 0] ∧
    ((TownNames.init [nodeSimple, nodeDup]).output []).map
      (fun r => r.1.townNameIDS "a") = .ok (some 1) := by
  refine ⟨by decide, by decide⟩

/-- C5 (witness): the amended theorem at the concrete duplicate-id run. -/
theorem C5_witness :
    outputTowns (fun _ => none) 0 [] [nodeSimple, nodeDup] =
      .ok (fun k => if k = "a" then some 1
            else if k = "a" then some 0 else none, 2,
        [11, 0, 0, 0, 255, 15, 0, 1, 1, 0, 0, 1, 195, 158, 120, 0,
         11, 0, 0, 0, 255, 15, 1, 1, 1, 0, 0, 1, 195, 158, 121, 0]) ∧
    (fun k => if k = "a" then some 1
      else if k = "a" then some 0 else none) "a" = some (0 + 1) :=
  ⟨rfl,
   C5_thm [nodeSimple, nodeDup] (fun _ => none) 0 [] _ rfl "a" 1
     (by decide) (by decide) (by decide)⟩

/-!
## Claim C6: determinism across compilations
-/

/-- C6 (counterexample): calling `output` twice on the same `TownNames`
object (same node sequence, same content) does NOT reproduce the bytes: the
registry fields persist across calls, so the second run assigns handle 1
instead of 0 and the emitted records differ in the handle byte. -/
theorem C6_counterexample :
    runTwice (TownNames.init [nodeSimple]) =
      .ok ([11, 0, 0, 0, 255, 15, 0, 1, 1, 0, 0, 1, 195, 158, 120, 0],
           [11, 0, 0, 0, 255, 15, 1, 1, 1, 0, 0, 1, 195, 158, 120, 0]) ∧
    ([11, 0, 0, 0, 255, 15, 0, 1, 1, 0, 0, 1, 195, 158, 120, 0] : List Nat) ≠
      [11, 0, 0, 0, 255, 15, 1, 1, 1, 0, 0, 1, 195, 158, 120, 0] := by
  refine ⟨by decide, by decide⟩

/-- C6 (amended): compilation is a pure function of the node sequence and
the two registry fields: two `TownNames` values with the same entries and
extensionally equal registry state produce byte-for-byte identical output
(in particular, two compilations that each start from a freshly constructed
`TownNames` agree).  Determinism across two successive `output` calls on the
same object fails, because the second call starts from the mutated registry
(see the counterexample). -/
theorem C6_thm (tn1 tn2 : TownNames) (file : List Nat)
    (he : tn1.entries = tn2.entries)
    (hreg : ∀ k, tn1.townNameIDS k = tn2.townNameIDS k)
    (hlast : tn1.lastTownNameID = tn2.lastTownNameID) :
    (tn1.output file).map (fun r => r.2) =
      (tn2.output file).map (fun r => r.2) := by
  have hf : tn1.townNameIDS = tn2.townNameIDS := funext hreg
  cases tn1 with
  | mk e1 r1 l1 =>
    cases tn2 with
    | mk e2 r2 l2 =>
      dsimp only at he hf hlast
      subst he
      subst hf
      subst hlast
      rfl

/-- C6 (witness): the amended theorem applied to a fresh `TownNames` and a
value with a syntactically different but extensionally equal registry. -/
theorem C6_witness :
    (∀ k, (TownNames.init [nodeSimple]).townNameIDS k =
      (⟨[nodeSimple], fun k => if k = "q" then none else none,
        0⟩ : TownNames).townNameIDS k) ∧
    ((TownNames.init [nodeSimple]).output []).map (fun r => r.2) =
      ((⟨[nodeSimple], fun k => if k = "q" then none else none,
        0⟩ : TownNames).output []).map (fun r => r.2) :=
  ⟨fun k => by simp [TownNames.init],
   C6_thm (TownNames.init [nodeSimple])
     ⟨[nodeSimple], fun k => if k = "q" then none else none, 0⟩ []
     rfl (fun k => by simp [TownNames.init]) rfl⟩

/-!
## Claim C10: self-references and registration order
-/

set_option maxRecDepth 10000 in
/-- The ceiling logarithm of a byte-sized weight sum fits a byte. -/
lemma ceilLog2_le_8 : ∀ p : Nat, p ≤ 255 → ceilLog2 p ≤ 8 := by
  decide

/-- C10 (counterexample): a sequence whose node references its own id does
not always compile: `nodeSelf` refers to itself in its first part, but its
second part has weight sum zero, so compilation fails. -/
theorem C10_counterexample :
    refersTo "a" nodeSelf = true ∧ nodeSelf.ID = "a" ∧
    ((TownNames.init [nodeSelf]).output []).map (fun r => r.2) =
      .error .valueError := by
  refine ⟨by decide, by decide, by decide⟩

/-- C10 (amended): the node id is registered (and its handle assigned)
immediately before the node's own record is emitted.  Hence, for any
starting registry state and any otherwise fault-free self-referencing node
`TownName(e, id, None, [[TownReference(id, p)]])` (with `e`, the current
handle counter, in byte range and `1 ≤ p ≤ 255`), emission succeeds even if
`id` was previously unregistered or bound to a stale handle, and the
emitted reference byte pair is `[0x80 | p, h]` where `h` is the node's own
freshly assigned handle (the current `lastTownNameID`). -/
theorem C10_thm (IDs : String → Option Nat) (last : Nat) (file : List Nat)
    (e : Nat) (id : String) (p : Nat)
    (he : e < 256) (hp0 : 0 < p) (hp : p ≤ 255) (hlast : last < 256) :
    (outputTowns IDs last file
        [⟨e, id, none, [[TownEntry.reference id p]]⟩]).map
      (fun r => (r.2.1, r.2.2)) =
      .ok (last + 1,
        file ++ output_dword 8 ++
          [0xFF, 0x0F, last, 1, 1, e, ceilLog2 p, 0x80 ||| p, last]) := by
  have hsum : sumProba [TownEntry.reference id p] = p := by
    simp [sumProba, TownEntry.proba]
  have hpz : sumProba [TownEntry.reference id p] ≠ 0 := by
    rw [hsum]
    omega
  have hor : (0x80 ||| p) < 256 := lor_128_lt_256 p hp
  have hcl : ceilLog2 p < 256 :=
    Nat.lt_of_le_of_lt (ceilLog2_le_8 p hp) (by norm_num)
  have f0 : dictGet (fun k => if k = id then some last else IDs k) id =
      .ok last := by
    rw [dictGet]
    simp
  have f1 : outputEntry (fun k => if k = id then some last else IDs k)
      (TownEntry.reference id p) = .ok ([0x80 ||| p] ++ [last]) := by
    simp only [outputEntry, output_byte, if_pos hor, f0, if_pos hlast]
  have f2 : outputPartEntries (fun k => if k = id then some last else IDs k)
      [TownEntry.reference id p] = .ok (([0x80 ||| p] ++ [last]) ++ []) := by
    simp only [outputPartEntries, f1]
  have f3 : outputPart (fun k => if k = id then some last else IDs k) e
      [TownEntry.reference id p] =
      .ok ([1] ++ [e] ++ [ceilLog2 p] ++ (([0x80 ||| p] ++ [last]) ++ [])) := by
    simp only [outputPart, List.length_cons, List.length_nil, output_byte,
      if_pos (show (0:Nat) + 1 < 256 by norm_num), if_pos he, if_neg hpz,
      hsum, if_pos hcl, f2, Nat.zero_add]
    rw [if_neg (show ¬p = 0 by omega)]
  have f4 : outputParts (fun k => if k = id then some last else IDs k) e
      [[TownEntry.reference id p]] =
      .ok (([1] ++ [e] ++ [ceilLog2 p] ++ (([0x80 ||| p] ++ [last]) ++ []))
        ++ []) := by
    simp only [outputParts, f3]
  have f5 : TownName.output ⟨e, id, none, [[TownEntry.reference id p]]⟩ file
      (fun k => if k = id then some last else IDs k) =
      .ok (file ++ output_dword 8 ++
        [0xFF, 0x0F, last, 1, 1, e, ceilLog2 p, 0x80 ||| p, last]) := by
    simp only [TownName.output, f0]
    simp only [Option.isSome_none, Bool.false_eq_true, if_false,
      Nat.add_zero, output_byte, if_pos hlast, outputNames,
      List.length_cons, List.length_nil,
      if_pos (show (0:Nat) + 1 < 256 by norm_num), f4]
    simp [List.length_append]
  simp only [outputTowns, f5]
  rfl

/-- C10 (witness): the amended theorem at a concrete self-referencing node,
starting from a registry that already maps `a` to a stale handle 77 and a
handle counter of 3: the reference byte pair encodes the fresh handle 3. -/
theorem C10_witness :
    (0 < 200 ∧ 200 ≤ 255 ∧ 3 < 256) ∧
    (outputTowns (fun k => if k = "a" then some 77 else none) 3 []
        [⟨5, "a", none, [[TownEntry.reference "a" 200]]⟩]).map
      (fun r => (r.2.1, r.2.2)) =
      .ok (3 + 1,
        [] ++ output_dword 8 ++
          [0xFF, 0x0F, 3, 1, 1, 5, ceilLog2 200, 0x80 ||| 200, 3]) :=
  ⟨⟨by decide, by decide, by decide⟩,
   C10_thm (fun k => if k = "a" then some 77 else none) 3 [] 5 "a" 200
     (by decide) (by decide) (by decide) (by decide)⟩

/-!
## Fuel adequacy for `divideAux`
-/

/-- Every chunk the loop cuts has at most 255 entries, and chunks exist only
when the loop guard held at entry. -/
lemma chunkLoop_chunks_spec (ID : String) :
    ∀ (mx : Nat) (part : List TownEntry) (kc : Nat × List TownEntry),
      kc ∈ (chunkLoop ID part mx).2 →
      kc.2.length ≤ 255 ∧ mx < part.length := by
  intro mx
  induction mx with
  | zero =>
    intro part kc h
    exact absurd h (by simp [chunkLoop])
  | succ k ih =>
    intro part kc h
    match k with
    | 0 => exact absurd h (by simp [chunkLoop])
    | m+1 =>
      by_cases hg : m + 2 < part.length
      · rw [chunkLoop_step ID part m hg] at h
        rcases List.mem_cons.mp h with heq | hmem
        · subst heq
          refine ⟨?_, hg⟩
          simp only [List.length_take]
          omega
        · have hrec := ih (part.drop 255) kc hmem
          refine ⟨hrec.1, ?_⟩
          have h2 := hrec.2
          rw [List.length_drop] at h2
          omega
      · rw [chunkLoop_stop ID part (m+2) (Or.inl (by omega))] at h
        exact absurd h (by simp)

/-- A part's length is bounded by the node's total entry count. -/
lemma length_le_totalAlts (t : TownName) (part : List TownEntry)
    (h : part ∈ t.content) : part.length ≤ totalAlts t := by
  rw [totalAlts]
  exact List.single_le_sum (fun x _ => Nat.zero_le x) _
    (List.mem_map_of_mem _ h)

/-- Pointwise equal functions flat-map equally. -/
lemma flatMap_congr_mem {α β : Type} {l : List α} {f g : α → List β}
    (h : ∀ a ∈ l, f a = g a) : l.flatMap f = l.flatMap g := by
  induction l with
  | nil => rfl
  | cons a l ih =>
    simp only [List.flatMap_cons]
    rw [h a (by simp), ih (fun x hx => h x (by simp [hx]))]

/-- The fuel passed to `divideAux` is irrelevant as soon as it exceeds the
node's total entry count: the recursion only ever descends into chunk nodes,
whose totals are at most 255 and strictly below the parent total.  In
particular `divideTownNames`'s choice `totalAlts t + 1` never hits the
fuel-exhaustion base case, so the fuel encoding is faithful to the
unbounded Python recursion. -/
lemma divideAux_fuel_irrelevant :
    ∀ (f1 f2 : Nat) (t : TownName), totalAlts t < f1 → totalAlts t < f2 →
      divideAux f1 t = divideAux f2 t := by
  intro f1
  induction f1 with
  | zero =>
    intro f2 t h1
    exact absurd h1 (by omega)
  | succ a ih =>
    intro f2 t h1 h2
    cases f2 with
    | zero => exact absurd h2 (by omega)
    | succ b =>
      rw [divideAux_succ, divideAux_succ]
      have hmap : ∀ part ∈ t.content,
          (fun part => ((chunkLoop t.ID part 255).1,
            (chunkLoop t.ID part 255).2.flatMap (fun kc =>
              divideAux a
                ⟨t.entropyStart + ceilLog2 part.length - 8,
                 t.ID ++ "__" ++ toString kc.1, none, [kc.2]⟩))) part =
          (fun part => ((chunkLoop t.ID part 255).1,
            (chunkLoop t.ID part 255).2.flatMap (fun kc =>
              divideAux b
                ⟨t.entropyStart + ceilLog2 part.length - 8,
                 t.ID ++ "__" ++ toString kc.1, none, [kc.2]⟩))) part := by
        intro part hp
        dsimp only
        congr 1
        apply flatMap_congr_mem
        intro kc hkc
        have hspec := chunkLoop_chunks_spec t.ID 255 part kc hkc
        have hple := length_le_totalAlts t part hp
        have htot : totalAlts
            ⟨t.entropyStart + ceilLog2 part.length - 8,
             t.ID ++ "__" ++ toString kc.1, none, [kc.2]⟩ = kc.2.length := by
          simp [totalAlts]
        apply ih
        · rw [htot]
          omega
        · rw [htot]
          omega
      rw [List.map_congr_left hmap]

/-- C7 witness: instantiating the amended alternative-encoding theorem at a
reference of weight 5 to a node registered under handle 7, whose emitted
bytes are `[133, 7]` (`133 = 0x80 ||| 5`). -/
theorem C7_witness :
    (TownEntry.reference "n" 5).proba ≤ 127 ∧
    outputEntry (fun k => if k = "n" then some 7 else none)
      (TownEntry.reference "n" 5) = .ok [133, 7] ∧
    (∃ b0 rest, ([133, 7] : List Nat) = b0 :: rest ∧
      (128 ≤ b0 ↔ (TownEntry.reference "n" 5).isReference = true) ∧
      (∀ r p, TownEntry.reference "n" 5 = TownEntry.reference r p →
        b0 % 128 = p ∧ ∃ hd,
          (fun k => if k = "n" then some 7 else none) r = some hd ∧
          rest = [hd]) ∧
      (∀ t p, TownEntry.reference "n" 5 = TownEntry.string t p →
        b0 = p ∧ rest = output_string t)) :=
  ⟨by decide, by decide,
   C7_thm (fun k => if k = "n" then some 7 else none)
     (TownEntry.reference "n" 5) [133, 7] (by decide) (by decide)⟩
